import Mathlib

/-!
Verification development for the `koyeb-webhook-logger` fan-out broadcast
server (Go). The server state and its operations are embedded from the
program source: the registry `fanOut : map[int64]chan string`, the shared
inbound queue `messages : chan string`, and the handlers `serveIndex`,
`webhookReceiver`, `logOutput`, plus the helpers `addListener`,
`getListener`, `removeListener`, `parseCookie` and the broadcast loop
body of `run`.

Channels are modelled as FIFO buffers (lists) plus a closed flag; an
inbound message is instrumented with its publish sequence number so that
one particular published message can be tracked through the fan-out.
Every subscriber channel ever allocated by `make(chan string, msgBuffer)`
is kept in a creation-ordered list `chans`; the registry `fanOut` is an
association list from the int64 session identifier to the creation index
of that subscriber's channel (Go map semantics: insert overwrites an
entry with the same key, delete removes it).
-/

namespace WebhookLogger

/-- An inbound message: its publish sequence number (ghost instrumentation
identifying the publish event) and the request body string. -/
abbrev Msg := Nat × String

/-- A buffered channel as created by `make(chan string, msgBuffer)`:
its current FIFO contents and whether `close` has been called on it. -/
structure Chan where
  buf : List Msg
  closed : Bool
deriving DecidableEq

/-- A freshly made channel: empty and open. -/
def Chan.new : Chan := ⟨[], false⟩

/-- Go map insert `m[k] = v`: overwrite the entry for `k` if present,
otherwise append a new entry. -/
def mapInsert (k : Int) (v : Nat) : List (Int × Nat) → List (Int × Nat)
  | [] => [(k, v)]
  | p :: rest => if p.1 = k then (k, v) :: rest else p :: mapInsert k v rest

/-- Go map delete `delete(m, k)`. -/
def mapErase (k : Int) : List (Int × Nat) → List (Int × Nat)
  | [] => []
  | p :: rest => if p.1 = k then mapErase k rest else p :: mapErase k rest

/-- Go map lookup `m[k]`, `none` when the key is absent (nil channel). -/
def mapLookup (k : Int) : List (Int × Nat) → Option Nat
  | [] => none
  | p :: rest => if p.1 = k then some p.2 else mapLookup k rest

/-- The state of the `server` struct: the shared inbound queue
`messages`, the next publish sequence number, every subscriber channel
ever created (indexed by creation order), and the registry `fanOut`. -/
structure ServerState where
  messages : List Msg
  pubSeq : Nat
  chans : List Chan
  fanOut : List (Int × Nat)
deriving DecidableEq

/-- Apply `f` to the element at position `n`, when it exists. -/
def modifyIdx (f : Chan → Chan) : Nat → List Chan → List Chan
  | _, [] => []
  | 0, c :: rest => f c :: rest
  | n + 1, c :: rest => c :: modifyIdx f n rest

/-- `ch <- msg` on an open buffered channel: append to the FIFO buffer. -/
def appendMsg (m : Msg) (c : Chan) : Chan := { c with buf := c.buf ++ [m] }

/-- The fan-out step of `run`: `for idx, ch := range s.fanOut { ch <- msg }`,
sending `m` into every channel currently registered. -/
def sendAll (m : Msg) (fan : List (Int × Nat)) (chans : List Chan) : List Chan :=
  fan.foldl (fun cs p => modifyIdx (appendMsg m) p.2 cs) chans

/-- `s.messages <- body`: enqueue one inbound message onto the shared
queue, stamping it with the next publish sequence number. -/
def ServerState.publish (b : String) (s : ServerState) : ServerState :=
  { s with messages := s.messages ++ [(s.pubSeq, b)], pubSeq := s.pubSeq + 1 }

/-- One iteration of the broadcast loop `run`: receive the next message
from `s.messages` and, under the mutex, send it into every registered
subscriber channel; a no-op when the inbound queue is empty (the Go
loop blocks there). -/
def ServerState.deliverOne (s : ServerState) : ServerState :=
  match s.messages with
  | [] => s
  | m :: rest => { s with messages := rest, chans := sendAll m s.fanOut s.chans }

/-- `addListener`: `idx := time.Now().UnixNano()`, make a fresh channel,
`s.fanOut[idx] = ch`, return `idx` (and the channel, identified here by
its creation index `s.chans.length`). The clock reading is the
parameter `now`. -/
def ServerState.addListener (now : Int) (s : ServerState) : Int × ServerState :=
  (now, { s with chans := s.chans ++ [Chan.new],
                 fanOut := mapInsert now s.chans.length s.fanOut })

/-- `getListener`: registry lookup, `none` for Go's nil channel. -/
def ServerState.getListener (idx : Int) (s : ServerState) : Option Nat :=
  mapLookup idx s.fanOut

/-- `removeListener`: `delete(s.fanOut, idx)`. -/
def ServerState.removeListener (idx : Int) (s : ServerState) : ServerState :=
  { s with fanOut := mapErase idx s.fanOut }

/-- The events the server state undergoes: a webhook body enqueued, one
broadcast-loop iteration, a listener added (with the clock reading used
as its identifier), a listener removed. -/
inductive Event where
  | publish (b : String)
  | deliver
  | add (now : Int)
  | remove (idx : Int)
deriving DecidableEq

/-- Whether an event changes the set of registered subscribers. -/
def Event.touchesRegistry : Event → Bool
  | .add _ => true
  | .remove _ => true
  | _ => false

/-- Small-step semantics of the server state. -/
def step (s : ServerState) : Event → ServerState
  | .publish b => s.publish b
  | .deliver => s.deliverOne
  | .add now => (s.addListener now).2
  | .remove idx => s.removeListener idx

/-- Run a sequence of events. -/
def exec (s : ServerState) (evs : List Event) : ServerState := evs.foldl step s

/-- The messages published by a sequence of events, stamped with the
sequence numbers they get when the first one is stamped `n`. -/
def publishedMsgs : List Event → Nat → List Msg
  | [], _ => []
  | Event.publish b :: evs, n => (n, b) :: publishedMsgs evs (n + 1)
  | _ :: evs, n => publishedMsgs evs n

/-- The bodies published by a sequence of events, in order. -/
def pubBodies (evs : List Event) : List String :=
  evs.filterMap fun e => match e with | .publish b => some b | _ => none

/-- Well-formedness of the server state: registry keys are distinct (it
is a map), each registered channel index is distinct and in range, and
inbound sequence stamps are below `pubSeq` and pairwise distinct. -/
def WF (s : ServerState) : Prop :=
  (s.fanOut.map Prod.fst).Nodup ∧
  (s.fanOut.map Prod.snd).Nodup ∧
  (∀ p ∈ s.fanOut, p.2 < s.chans.length) ∧
  (∀ m ∈ s.messages, m.1 < s.pubSeq) ∧
  (s.messages.map Prod.fst).Nodup

instance (s : ServerState) : Decidable (WF s) := by
  unfold WF; infer_instance

/-! ### The HTTP layer

`parseCookie` and the three handlers `serveIndex`, `webhookReceiver`
and `logOutput`, embedded from the source. A request's method, its
`Authorization` header (Go's `r.Header.Get` yields `""` when absent)
and its `idx` cookie (`r.Cookie` errors with `ErrNoCookie` when absent,
modelled as `Option String`) are the handler inputs. -/

/-- Digit-string accumulation used by `strconv.ParseInt(v, 10, 64)`:
`none` as soon as a non-digit appears. -/
def digitsToNat : List Char → Nat → Option Nat
  | [], acc => some acc
  | c :: rest, acc =>
    if '0' ≤ c ∧ c ≤ '9' then digitsToNat rest (acc * 10 + (c.toNat - '0'.toNat))
    else none

/-- A non-empty all-digit string, as a natural number. -/
def parseNatDec (l : List Char) : Option Nat :=
  match l with
  | [] => none
  | _ => digitsToNat l 0

/-- `strconv.ParseInt(v, 10, 64)`: optional sign, at least one decimal
digit, and the value must fit in a signed 64-bit integer. -/
def parseIntDec (l : List Char) : Option Int :=
  match l with
  | '+' :: ds => (parseNatDec ds).bind fun n =>
      if n ≤ 2 ^ 63 - 1 then some (Int.ofNat n) else none
  | '-' :: ds => (parseNatDec ds).bind fun n =>
      if n ≤ 2 ^ 63 then some (-(Int.ofNat n)) else none
  | ds => (parseNatDec ds).bind fun n =>
      if n ≤ 2 ^ 63 - 1 then some (Int.ofNat n) else none

/-- `parseCookie`: 0 for a nil cookie, 0 when `ParseInt` fails,
otherwise the parsed identifier. -/
def parseCookie (cookie : Option String) : Int :=
  match cookie with
  | none => 0
  | some v => (parseIntDec v.toList).getD 0

/-- `fmt.Sprint` of an int64: its decimal string. -/
def intToStr (n : Int) : String :=
  ⟨if n < 0 then '-' :: Nat.toDigits 10 n.natAbs else Nat.toDigits 10 n.natAbs⟩

/-- Split at the first space, returning the parts before and after it;
`none` when there is no space. -/
def splitFirst : List Char → Option (List Char × List Char)
  | [] => none
  | c :: rest =>
    if c = ' ' then some ([], rest)
    else match splitFirst rest with
      | none => none
      | some (a, b) => some (c :: a, b)

/-- `strings.SplitN(auth, " ", 2)`. -/
def splitN2 (l : List Char) : List (List Char) :=
  match splitFirst l with
  | none => [l]
  | some (a, b) => [a, b]

/-- `strings.ToLower`, restricted to ASCII case folding. -/
def toLowerAscii (l : List Char) : List Char := l.map Char.toLower

/-- The bearer check of `webhookReceiver`:
`parts := strings.SplitN(auth, " ", 2)` and the request is authorized
unless `len(parts) != 2 || strings.ToLower(parts[0]) != "bearer" ||
parts[1] != s.bearer`. -/
def bearerOk (bearer auth : String) : Bool :=
  match splitN2 auth.toList with
  | [p0, p1] => toLowerAscii p0 == "bearer".toList && p1 == bearer.toList
  | _ => false

/-- `webhookReceiver`: reject non-POST with 405; when a bearer token is
configured, reject a failed `Authorization` check with 401; reply 500
when reading the body fails (`body = none`); otherwise enqueue the body
on the shared inbound queue and return (implicitly) 200. -/
def webhookReceiver (bearer method auth : String) (body : Option String)
    (s : ServerState) : Nat × ServerState :=
  if method ≠ "POST" then (405, s)
  else if bearer ≠ "" ∧ bearerOk bearer auth = false then (401, s)
  else
    match body with
    | none => (500, s)
    | some b => (200, s.publish b)

/-- `logOutput`: reject non-GET with 405; an absent cookie or an
identifier of 0 (absent-or-unparsable cookie) with 401; an identifier
with no live registry entry with 400; a failed websocket upgrade with
500; otherwise the connection is upgraded (101) and the streaming loop
starts. The handler itself never changes the server state. -/
def logOutput (method : String) (cookie : Option String) (upgradeOk : Bool)
    (s : ServerState) : Nat × ServerState :=
  if method ≠ "GET" then (405, s)
  else
    match cookie with
    | none => (401, s)
    | some v =>
      if parseCookie (some v) = 0 then (401, s)
      else
        match s.getListener (parseCookie (some v)) with
        | none => (400, s)
        | some _ => if upgradeOk then (101, s) else (500, s)

/-- The exit causes of the delivery loop in `logOutput`:
`for msg := range ch` with a `break` when `s.push(conn, msg)` fails. -/
inductive LoopExit where
  | pushFailed
  | chanClosed
deriving DecidableEq

/-- The deferred cleanup of `logOutput`:
`defer func() { conn.Close(); s.removeListener(idx) }()`. It runs on
every exit of the delivery loop, whatever the cause; it closes the
websocket connection (the returned Bool) and removes the subscriber's
registry entry. No code path closes the subscriber's channel itself. -/
def deferredCleanup (cause : LoopExit) (idx : Int) (s : ServerState) :
    Bool × ServerState :=
  (true, s.removeListener idx)

/-- `serveIndex`: reject non-GET with 405; when the request has no
cookie, or its cookie does not resolve via `parseCookie` and
`getListener` to a live registry entry, register a new listener using
the clock reading `now` and set the `idx` cookie to its identifier;
otherwise reuse the live entry. Always serves the index page with 200.
The middle component is the `Set-Cookie` value, when one is set. -/
def serveIndex (method : String) (cookie : Option String) (now : Int)
    (s : ServerState) : Nat × Option String × ServerState :=
  if method ≠ "GET" then (405, none, s)
  else if (match cookie with
           | none => true
           | some v => (s.getListener (parseCookie (some v))).isNone) then
    (200, some (intToStr (s.addListener now).1), (s.addListener now).2)
  else (200, none, s)

/-- `ServeHTTP` starts with the statement `go s.run()`: one more
broadcast goroutine is spawned, unconditionally, before routing. -/
def goRun (workers : Nat) : Nat := workers + 1

/-- The number of broadcast goroutines spawned by a process after
serving `n` HTTP requests (each request executes `go s.run()`). -/
def workersAfter : Nat → Nat
  | 0 => 0
  | n + 1 => goRun (workersAfter n)

/-! ### Concrete states used to evaluate the definitions -/

/-- A freshly started server: no messages, no channels, no listeners. -/
def emptyState : ServerState := ⟨[], 0, [], []⟩

/-- A server with one live listener, identifier 42, channel 0. -/
def oneListener : ServerState := ⟨[], 0, [Chan.new], [(42, 0)]⟩

/-- Two live listeners (identifiers 10 and 20) and an empty inbound queue. -/
def twoListeners : ServerState := ⟨[], 0, [Chan.new, Chan.new], [(10, 0), (20, 1)]⟩

/-- Two webhooks arrive and the broadcast loop forwards both. -/
def twoPublishes : List Event := [.publish "a", .deliver, .publish "b", .deliver]

/-- One orphaned channel (index 0, not registered), then a listener is
added and a message is published and fanned out. -/
def orphanState : ServerState := ⟨[], 1, [Chan.new], []⟩

/-- Events run against `orphanState` for the snapshot property. -/
def orphanEvents : List Event := [.add 5, .publish "x", .deliver]

/-! ### Lemmas about `modifyIdx` and `sendAll` -/

lemma modifyIdx_length (f : Chan → Chan) (n : Nat) (l : List Chan) :
    (modifyIdx f n l).length = l.length := by
  induction l generalizing n with
  | nil => cases n <;> rfl
  | cons c rest ih =>
    cases n with
    | zero => rfl
    | succ m => simpa [modifyIdx] using ih m

lemma modifyIdx_getElem?_ne (f : Chan → Chan) (n k : Nat) (l : List Chan)
    (h : k ≠ n) : (modifyIdx f n l)[k]? = l[k]? := by
  induction l generalizing n k with
  | nil => cases n <;> rfl
  | cons c rest ih =>
    cases n with
    | zero =>
      cases k with
      | zero => exact absurd rfl h
      | succ j => simp [modifyIdx]
    | succ m =>
      cases k with
      | zero => simp [modifyIdx]
      | succ j =>
        simpa [modifyIdx] using ih m j (by omega)

lemma modifyIdx_getElem?_eq (f : Chan → Chan) (n : Nat) (l : List Chan) :
    (modifyIdx f n l)[n]? = (l[n]?).map f := by
  induction l generalizing n with
  | nil => cases n <;> rfl
  | cons c rest ih =>
    cases n with
    | zero => simp [modifyIdx]
    | succ m => simpa [modifyIdx] using ih m

lemma sendAll_cons (m : Msg) (p : Int × Nat) (fan : List (Int × Nat))
    (chans : List Chan) :
    sendAll m (p :: fan) chans = sendAll m fan (modifyIdx (appendMsg m) p.2 chans) :=
  rfl

lemma sendAll_length (m : Msg) (fan : List (Int × Nat)) (chans : List Chan) :
    (sendAll m fan chans).length = chans.length := by
  induction fan generalizing chans with
  | nil => rfl
  | cons p rest ih =>
    rw [sendAll_cons, ih, modifyIdx_length]

lemma sendAll_getElem?_not_mem (m : Msg) (fan : List (Int × Nat))
    (chans : List Chan) (cn : Nat) (h : cn ∉ fan.map Prod.snd) :
    (sendAll m fan chans)[cn]? = chans[cn]? := by
  induction fan generalizing chans with
  | nil => rfl
  | cons p rest ih =>
    simp only [List.map_cons, List.mem_cons, not_or] at h
    rw [sendAll_cons, ih (modifyIdx (appendMsg m) p.2 chans) h.2]
    exact modifyIdx_getElem?_ne _ _ _ _ h.1

lemma sendAll_getElem?_mem (m : Msg) (fan : List (Int × Nat))
    (chans : List Chan) (cn : Nat) (hnd : (fan.map Prod.snd).Nodup)
    (h : cn ∈ fan.map Prod.snd) :
    (sendAll m fan chans)[cn]? = (chans[cn]?).map (appendMsg m) := by
  induction fan generalizing chans with
  | nil => simp at h
  | cons p rest ih =>
    simp only [List.map_cons, List.nodup_cons] at hnd
    simp only [List.map_cons, List.mem_cons] at h
    rw [sendAll_cons]
    rcases h with h | h
    · subst h
      rw [sendAll_getElem?_not_mem _ _ _ _ hnd.1]
      exact modifyIdx_getElem?_eq _ _ _
    · have hne : cn ≠ p.2 := fun he => hnd.1 (he ▸ h)
      rw [ih _ hnd.2 h, modifyIdx_getElem?_ne _ _ _ _ hne]

/-! ### Lemmas about the registry association list -/

lemma mem_mapInsert (k : Int) (v : Nat) (l : List (Int × Nat))
    (q : Int × Nat) (h : q ∈ mapInsert k v l) : q = (k, v) ∨ q ∈ l := by
  induction l with
  | nil => simpa [mapInsert] using h
  | cons p rest ih =>
    by_cases hp : p.1 = k
    · simp only [mapInsert, if_pos hp, List.mem_cons] at h
      rcases h with h | h
      · exact Or.inl h
      · exact Or.inr (List.mem_cons_of_mem _ h)
    · simp only [mapInsert, if_neg hp, List.mem_cons] at h
      rcases h with h | h
      · exact Or.inr (h ▸ List.mem_cons_self _ _)
      · rcases ih h with h' | h'
        · exact Or.inl h'
        · exact Or.inr (List.mem_cons_of_mem _ h')

lemma map_fst_mapInsert_subset (k : Int) (v : Nat) (l : List (Int × Nat))
    (x : Int) (h : x ∈ (mapInsert k v l).map Prod.fst) :
    x = k ∨ x ∈ l.map Prod.fst := by
  rcases List.mem_map.1 h with ⟨q, hq, rfl⟩
  rcases mem_mapInsert k v l q hq with h' | h'
  · exact Or.inl (by rw [h'])
  · exact Or.inr (List.mem_map_of_mem _ h')

lemma map_snd_mapInsert_subset (k : Int) (v : Nat) (l : List (Int × Nat))
    (x : Nat) (h : x ∈ (mapInsert k v l).map Prod.snd) :
    x = v ∨ x ∈ l.map Prod.snd := by
  rcases List.mem_map.1 h with ⟨q, hq, rfl⟩
  rcases mem_mapInsert k v l q hq with h' | h'
  · exact Or.inl (by rw [h'])
  · exact Or.inr (List.mem_map_of_mem _ h')

lemma fst_nodup_mapInsert (k : Int) (v : Nat) (l : List (Int × Nat))
    (h : (l.map Prod.fst).Nodup) : ((mapInsert k v l).map Prod.fst).Nodup := by
  induction l with
  | nil => simp [mapInsert]
  | cons p rest ih =>
    simp only [List.map_cons, List.nodup_cons] at h
    by_cases hp : p.1 = k
    · simp only [mapInsert, if_pos hp, List.map_cons, List.nodup_cons]
      exact ⟨hp ▸ h.1, h.2⟩
    · simp only [mapInsert, if_neg hp, List.map_cons, List.nodup_cons]
      refine ⟨fun hmem => ?_, ih h.2⟩
      rcases map_fst_mapInsert_subset k v rest p.1 hmem with h' | h'
      · exact hp h'
      · exact h.1 h'

lemma snd_nodup_mapInsert (k : Int) (v : Nat) (l : List (Int × Nat))
    (h : (l.map Prod.snd).Nodup) (hv : v ∉ l.map Prod.snd) :
    ((mapInsert k v l).map Prod.snd).Nodup := by
  induction l with
  | nil => simp [mapInsert]
  | cons p rest ih =>
    simp only [List.map_cons, List.nodup_cons] at h
    simp only [List.map_cons, List.mem_cons, not_or] at hv
    by_cases hp : p.1 = k
    · simp only [mapInsert, if_pos hp, List.map_cons, List.nodup_cons]
      exact ⟨hv.2, h.2⟩
    · simp only [mapInsert, if_neg hp, List.map_cons, List.nodup_cons]
      refine ⟨fun hmem => ?_, ih h.2 hv.2⟩
      rcases map_snd_mapInsert_subset k v rest p.2 hmem with h' | h'
      · exact hv.1 h'.symm
      · exact h.1 h'

lemma length_mapInsert_not_mem (k : Int) (v : Nat) (l : List (Int × Nat))
    (h : k ∉ l.map Prod.fst) : (mapInsert k v l).length = l.length + 1 := by
  induction l with
  | nil => rfl
  | cons p rest ih =>
    simp only [List.map_cons, List.mem_cons, not_or] at h
    have hp : p.1 ≠ k := fun he => h.1 he.symm
    simp only [mapInsert, if_neg hp, List.length_cons, ih h.2]

lemma mapLookup_mapInsert_self (k : Int) (v : Nat) (l : List (Int × Nat)) :
    mapLookup k (mapInsert k v l) = some v := by
  induction l with
  | nil => simp [mapInsert, mapLookup]
  | cons p rest ih =>
    by_cases hp : p.1 = k
    · simp [mapInsert, if_pos hp, mapLookup]
    · simp [mapInsert, if_neg hp, mapLookup, hp, ih]

lemma mapErase_sublist (k : Int) (l : List (Int × Nat)) :
    (mapErase k l).Sublist l := by
  induction l with
  | nil => exact List.Sublist.refl _
  | cons p rest ih =>
    by_cases hp : p.1 = k
    · simp only [mapErase, if_pos hp]
      exact ih.cons _
    · simp only [mapErase, if_neg hp]
      exact ih.cons₂ _

lemma mem_mapErase (k : Int) (l : List (Int × Nat)) (q : Int × Nat)
    (h : q ∈ mapErase k l) : q ∈ l :=
  (mapErase_sublist k l).mem h

lemma not_mem_map_fst_mapErase (k : Int) (l : List (Int × Nat)) :
    k ∉ (mapErase k l).map Prod.fst := by
  induction l with
  | nil => simp [mapErase]
  | cons p rest ih =>
    by_cases hp : p.1 = k
    · simpa only [mapErase, if_pos hp] using ih
    · simp only [mapErase, if_neg hp, List.map_cons, List.mem_cons, not_or]
      exact ⟨fun he => hp he.symm, ih⟩

lemma fst_nodup_mapErase (k : Int) (l : List (Int × Nat))
    (h : (l.map Prod.fst).Nodup) : ((mapErase k l).map Prod.fst).Nodup :=
  h.sublist ((mapErase_sublist k l).map Prod.fst)

lemma snd_nodup_mapErase (k : Int) (l : List (Int × Nat))
    (h : (l.map Prod.snd).Nodup) : ((mapErase k l).map Prod.snd).Nodup :=
  h.sublist ((mapErase_sublist k l).map Prod.snd)

lemma map_snd_mapErase_subset (k : Int) (l : List (Int × Nat)) (x : Nat)
    (h : x ∈ (mapErase k l).map Prod.snd) : x ∈ l.map Prod.snd := by
  rcases List.mem_map.1 h with ⟨q, hq, rfl⟩
  exact List.mem_map_of_mem _ (mem_mapErase k l q hq)

/-! ### Preservation of well-formedness -/

lemma deliverOne_nil (s : ServerState) (hm : s.messages = []) :
    s.deliverOne = s := by
  simp [ServerState.deliverOne, hm]

lemma deliverOne_cons (s : ServerState) (m : Msg) (rest : List Msg)
    (hm : s.messages = m :: rest) :
    s.deliverOne = { s with messages := rest, chans := sendAll m s.fanOut s.chans } := by
  simp [ServerState.deliverOne, hm]

lemma wf_step (s : ServerState) (e : Event) (h : WF s) : WF (step s e) := by
  obtain ⟨h1, h2, h3, h4, h5⟩ := h
  cases e with
  | publish b =>
    refine ⟨h1, h2, h3, ?_, ?_⟩
    · intro m hm
      simp only [step, ServerState.publish, List.mem_append,
        List.mem_singleton] at hm ⊢
      rcases hm with hm | hm
      · exact Nat.lt_succ_of_lt (h4 m hm)
      · subst hm; exact Nat.lt_succ_self _
    · simp only [step, ServerState.publish, List.map_append, List.map_cons,
        List.map_nil, List.nodup_append]
      refine ⟨h5, List.nodup_singleton _, ?_⟩
      intro x hx hx'
      simp only [List.mem_singleton] at hx'
      subst hx'
      rcases List.mem_map.1 hx with ⟨m, hm, he⟩
      exact Nat.lt_irrefl _ (he ▸ h4 m hm)
  | deliver =>
    cases hm : s.messages with
    | nil =>
      rw [show step s .deliver = s.deliverOne from rfl, deliverOne_nil s hm]
      exact ⟨h1, h2, h3, h4, h5⟩
    | cons m rest =>
      rw [show step s .deliver = s.deliverOne from rfl, deliverOne_cons s m rest hm]
      refine ⟨h1, h2, ?_, ?_, ?_⟩
      · intro p hp
        rw [sendAll_length]
        exact h3 p hp
      · intro m' hm'
        exact h4 m' (hm ▸ List.mem_cons_of_mem _ hm')
      · have := hm ▸ h5
        simp only [List.map_cons, List.nodup_cons] at this
        exact this.2
  | add now =>
    have hfresh : s.chans.length ∉ s.fanOut.map Prod.snd := by
      intro hmem
      rcases List.mem_map.1 hmem with ⟨p, hp, he⟩
      exact absurd (he ▸ h3 p hp) (lt_irrefl _)
    refine ⟨fst_nodup_mapInsert _ _ _ h1, snd_nodup_mapInsert _ _ _ h2 hfresh,
      ?_, h4, h5⟩
    intro p hp
    simp only [step, ServerState.addListener] at hp ⊢
    rcases mem_mapInsert _ _ _ _ hp with h | h
    · subst h
      simp
    · have := h3 p h
      simp only [List.length_append, List.length_cons, List.length_nil]
      omega
  | remove idx =>
    refine ⟨fst_nodup_mapErase _ _ h1, snd_nodup_mapErase _ _ h2, ?_, h4, h5⟩
    intro p hp
    exact h3 p (mem_mapErase _ _ _ hp)

lemma wf_exec (evs : List Event) : ∀ s, WF s → WF (exec s evs) := by
  induction evs with
  | nil => exact fun s h => h
  | cons e evs ih => exact fun s h => ih _ (wf_step s e h)

/-! ### A channel out of the registry is frozen -/

lemma frozen_step (s : ServerState) (e : Event) (cn : Nat) (hwf : WF s)
    (hlen : cn < s.chans.length) (hout : cn ∉ s.fanOut.map Prod.snd) :
    cn < (step s e).chans.length ∧ cn ∉ (step s e).fanOut.map Prod.snd ∧
      (step s e).chans[cn]? = s.chans[cn]? := by
  cases e with
  | publish b => exact ⟨hlen, hout, rfl⟩
  | deliver =>
    cases hm : s.messages with
    | nil =>
      rw [show step s .deliver = s.deliverOne from rfl, deliverOne_nil s hm]
      exact ⟨hlen, hout, rfl⟩
    | cons m rest =>
      rw [show step s .deliver = s.deliverOne from rfl, deliverOne_cons s m rest hm]
      exact ⟨by rw [sendAll_length]; exact hlen, hout,
        sendAll_getElem?_not_mem _ _ _ _ hout⟩
  | add now =>
    simp only [step, ServerState.addListener]
    refine ⟨?_, ?_, ?_⟩
    · simp only [List.length_append, List.length_cons, List.length_nil]
      omega
    · intro hmem
      rcases map_snd_mapInsert_subset _ _ _ _ hmem with h | h
      · omega
      · exact hout h
    · exact List.getElem?_append_left hlen
  | remove idx =>
    exact ⟨hlen, fun h => hout (map_snd_mapErase_subset _ _ _ h), rfl⟩

lemma frozen_exec (evs : List Event) : ∀ (s : ServerState) (cn : Nat),
    WF s → cn < s.chans.length → cn ∉ s.fanOut.map Prod.snd →
    (exec s evs).chans[cn]? = s.chans[cn]? := by
  induction evs with
  | nil => intro s cn _ _ _; rfl
  | cons e evs ih =>
    intro s cn hwf hlen hout
    obtain ⟨hlen', hout', heq⟩ := frozen_step s e cn hwf hlen hout
    rw [show exec s (e :: evs) = exec (step s e) evs from rfl,
      ih (step s e) cn (wf_step s e hwf) hlen' hout', heq]

/-! ### A message already fanned out never reaches a later channel -/

/-- The invariant behind the snapshot property: `t` is an
already-consumed sequence stamp (below `pubSeq`, no longer inbound) and
the channel at index `cn`, if it exists, does not hold it. -/
def NoTrace (t cn : Nat) (s : ServerState) : Prop :=
  t < s.pubSeq ∧ t ∉ s.messages.map Prod.fst ∧
  (∀ c, s.chans[cn]? = some c → ∀ b, (t, b) ∉ c.buf)

lemma noTrace_step (t cn : Nat) (s : ServerState) (e : Event)
    (hwf : WF s) (h : NoTrace t cn s) : NoTrace t cn (step s e) := by
  obtain ⟨hlt, hnin, hbuf⟩ := h
  cases e with
  | publish b =>
    refine ⟨Nat.lt_succ_of_lt hlt, ?_, hbuf⟩
    simp only [step, ServerState.publish, List.map_append, List.map_cons,
      List.map_nil, List.mem_append, List.mem_singleton]
    rintro (h | h)
    · exact hnin h
    · exact absurd (h ▸ hlt) (lt_irrefl _)
  | deliver =>
    cases hm : s.messages with
    | nil =>
      rw [show step s .deliver = s.deliverOne from rfl, deliverOne_nil s hm]
      exact ⟨hlt, hnin, hbuf⟩
    | cons m rest =>
      rw [show step s .deliver = s.deliverOne from rfl, deliverOne_cons s m rest hm]
      have hnin' := hm ▸ hnin
      simp only [List.map_cons, List.mem_cons, not_or] at hnin'
      refine ⟨hlt, hnin'.2, ?_⟩
      intro c hc b hb
      by_cases hcn : cn ∈ s.fanOut.map Prod.snd
      · rw [sendAll_getElem?_mem _ _ _ _ hwf.2.1 hcn] at hc
        rcases Option.map_eq_some'.1 hc with ⟨c₀, hc₀, rfl⟩
        simp only [appendMsg, List.mem_append, List.mem_singleton] at hb
        rcases hb with hb | hb
        · exact hbuf c₀ hc₀ b hb
        · exact hnin'.1 (congrArg Prod.fst hb)
      · rw [sendAll_getElem?_not_mem _ _ _ _ hcn] at hc
        exact hbuf c hc b hb
  | add now =>
    refine ⟨hlt, hnin, ?_⟩
    simp only [step, ServerState.addListener]
    intro c hc b hb
    rcases Nat.lt_or_ge cn s.chans.length with hl | hl
    · rw [List.getElem?_append_left hl] at hc
      exact hbuf c hc b hb
    · rw [List.getElem?_append_right hl] at hc
      rcases Nat.eq_or_lt_of_le hl with he | hgt
      · rw [← he, Nat.sub_self, List.getElem?_cons_zero] at hc
        cases hc
        simp [Chan.new] at hb
      · have : cn - s.chans.length ≥ 1 := by omega
        rw [List.getElem?_eq_none (by simp; omega)] at hc
        cases hc
  | remove idx => exact ⟨hlt, hnin, hbuf⟩

lemma noTrace_exec (t cn : Nat) (evs : List Event) : ∀ s : ServerState,
    WF s → NoTrace t cn s → NoTrace t cn (exec s evs) := by
  induction evs with
  | nil => exact fun s _ h => h
  | cons e evs ih =>
    exact fun s hwf h => ih (step s e) (wf_step s e hwf) (noTrace_step t cn s e hwf h)

/-! ### Fan-out to a fixed set of subscribers -/

lemma publishedMsgs_map_snd (evs : List Event) :
    ∀ n, (publishedMsgs evs n).map Prod.snd = pubBodies evs := by
  induction evs with
  | nil => intro n; rfl
  | cons e evs ih =>
    intro n
    cases e with
    | publish b =>
      simp only [publishedMsgs, pubBodies, List.filterMap_cons, List.map_cons, ih]
    | deliver => simpa [publishedMsgs, pubBodies, List.filterMap_cons] using ih n
    | add now => simpa [publishedMsgs, pubBodies, List.filterMap_cons] using ih n
    | remove idx => simpa [publishedMsgs, pubBodies, List.filterMap_cons] using ih n

/-- Running only publish and deliver events leaves the registry
untouched and turns each registered subscriber's channel buffer `c.buf`
into `buf` with `buf ++ pending = c.buf ++ old-pending ++ newly-published`:
the channel receives exactly the published messages, in publish order,
as the inbound queue drains. -/
lemma exec_pubdel (evs : List Event) : ∀ s : ServerState, WF s →
    (∀ e ∈ evs, e.touchesRegistry = false) →
    (exec s evs).fanOut = s.fanOut ∧
    ∀ cn, cn ∈ s.fanOut.map Prod.snd → ∀ c, s.chans[cn]? = some c →
      ∃ buf, (exec s evs).chans[cn]? = some ⟨buf, c.closed⟩ ∧
        buf ++ (exec s evs).messages =
          c.buf ++ s.messages ++ publishedMsgs evs s.pubSeq := by
  induction evs with
  | nil =>
    intro s hwf _
    refine ⟨rfl, fun cn hcn c hc => ⟨c.buf, hc, ?_⟩⟩
    simp [exec, publishedMsgs]
  | cons e evs ih =>
    intro s hwf hpd
    have hpd_tail : ∀ e' ∈ evs, e'.touchesRegistry = false :=
      fun e' he' => hpd e' (List.mem_cons_of_mem _ he')
    have hpd_head := hpd e (List.mem_cons_self _ _)
    rw [show exec s (e :: evs) = exec (step s e) evs from rfl]
    cases e with
    | publish b =>
      rw [show step s (Event.publish b) = ServerState.publish b s from rfl]
      obtain ⟨hfan, hmain⟩ := ih (s.publish b) (wf_step s (.publish b) hwf) hpd_tail
      refine ⟨hfan, ?_⟩
      intro cn hcn c hc
      obtain ⟨buf, h1, h2⟩ := hmain cn hcn c hc
      refine ⟨buf, h1, ?_⟩
      rw [h2]
      simp [ServerState.publish, publishedMsgs, List.append_assoc]
    | deliver =>
      cases hm : s.messages with
      | nil =>
        rw [show step s .deliver = s.deliverOne from rfl, deliverOne_nil s hm]
        obtain ⟨hfan, hmain⟩ := ih s hwf hpd_tail
        refine ⟨hfan, ?_⟩
        intro cn hcn c hc
        obtain ⟨buf, h1, h2⟩ := hmain cn hcn c hc
        exact ⟨buf, h1, by rw [h2, hm]; rfl⟩
      | cons m rest =>
        rw [show step s .deliver = s.deliverOne from rfl, deliverOne_cons s m rest hm]
        obtain ⟨hfan, hmain⟩ :=
          ih { s with messages := rest, chans := sendAll m s.fanOut s.chans }
            (by
              have := wf_step s .deliver hwf
              rwa [show step s .deliver = s.deliverOne from rfl,
                deliverOne_cons s m rest hm] at this)
            hpd_tail
        refine ⟨hfan, ?_⟩
        intro cn hcn c hc
        have hc' : (sendAll m s.fanOut s.chans)[cn]? = some (appendMsg m c) := by
          rw [sendAll_getElem?_mem _ _ _ _ hwf.2.1 hcn, hc]
          rfl
        obtain ⟨buf, h1, h2⟩ := hmain cn hcn (appendMsg m c) hc'
        refine ⟨buf, h1, ?_⟩
        rw [h2]
        simp [appendMsg, publishedMsgs, List.append_assoc]
    | add now => simp [Event.touchesRegistry] at hpd_head
    | remove idx => simp [Event.touchesRegistry] at hpd_head

/-! ### Characterizing the bearer check -/

lemma toLowerAscii_no_space (scheme : List Char)
    (h : toLowerAscii scheme = "bearer".toList) : ' ' ∉ scheme := by
  intro hmem
  have hm : Char.toLower ' ' ∈ toLowerAscii scheme := List.mem_map_of_mem _ hmem
  rw [h, show Char.toLower ' ' = ' ' from by decide] at hm
  exact absurd hm (by decide)

lemma splitFirst_some (l : List Char) : ∀ a b : List Char,
    splitFirst l = some (a, b) → l = a ++ ' ' :: b ∧ ' ' ∉ a := by
  induction l with
  | nil => intro a b h; simp [splitFirst] at h
  | cons c rest ih =>
    intro a b h
    by_cases hc : c = ' '
    · subst hc
      simp only [splitFirst, if_pos rfl, Option.some_inj, Prod.mk.injEq] at h
      obtain ⟨rfl, rfl⟩ := h
      simp
    · simp only [splitFirst, if_neg hc] at h
      cases hsf : splitFirst rest with
      | none => rw [hsf] at h; cases h
      | some p =>
        obtain ⟨a', b'⟩ := p
        rw [hsf] at h
        simp only [Option.some_inj, Prod.mk.injEq] at h
        obtain ⟨rfl, rfl⟩ := h
        obtain ⟨h1, h2⟩ := ih a' b' hsf
        refine ⟨by rw [List.cons_append, ← h1], ?_⟩
        simp only [List.mem_cons, not_or]
        exact ⟨fun he => hc he.symm, h2⟩

lemma splitFirst_append (a b : List Char) (ha : ' ' ∉ a) :
    splitFirst (a ++ ' ' :: b) = some (a, b) := by
  induction a with
  | nil => simp [splitFirst]
  | cons c a' ih =>
    simp only [List.mem_cons, not_or] at ha
    have hc : ¬c = ' ' := fun he => ha.1 he.symm
    rw [List.cons_append]
    simp only [splitFirst, if_neg hc, List.append_eq]
    rw [ih ha.2]

/-- The request passes the bearer check exactly when the header is a
scheme that lowercases to the word bearer, one space, and the exact
configured token. -/
lemma bearerOk_iff (bearer auth : String) :
    bearerOk bearer auth = true ↔
      ∃ scheme : List Char, toLowerAscii scheme = "bearer".toList ∧
        auth.toList = scheme ++ ' ' :: bearer.toList := by
  constructor
  · intro h
    simp only [bearerOk, splitN2] at h
    cases hsf : splitFirst auth.toList with
    | none => rw [hsf] at h; cases h
    | some p =>
      obtain ⟨p0, p1⟩ := p
      rw [hsf] at h
      simp only [Bool.and_eq_true, beq_iff_eq] at h
      obtain ⟨heq, -⟩ := splitFirst_some auth.toList p0 p1 hsf
      exact ⟨p0, h.1, by rw [heq, h.2]⟩
  · rintro ⟨scheme, hlow, heq⟩
    have hsp := toLowerAscii_no_space scheme hlow
    simp only [bearerOk, splitN2, heq, splitFirst_append _ _ hsp]
    simp [hlow]

/-! ### Unfolding lemmas for the handlers -/

lemma webhookReceiver_200 (bearer auth b : String) (s : ServerState)
    (h : bearer = "" ∨ bearerOk bearer auth = true) :
    webhookReceiver bearer "POST" auth (some b) s = (200, s.publish b) := by
  have hnot : ¬(bearer ≠ "" ∧ bearerOk bearer auth = false) := by
    rintro ⟨h1, h2⟩
    rcases h with h | h
    · exact h1 h
    · rw [h] at h2; cases h2
  unfold webhookReceiver
  rw [if_neg (by simp), if_neg hnot]

lemma webhookReceiver_401 (bearer auth b : String) (s : ServerState)
    (hb : bearer ≠ "") (hbo : bearerOk bearer auth = false) :
    webhookReceiver bearer "POST" auth (some b) s = (401, s) := by
  unfold webhookReceiver
  rw [if_neg (by simp), if_pos ⟨hb, hbo⟩]

lemma webhookReceiver_405 (bearer method auth : String) (body : Option String)
    (s : ServerState) (hm : method ≠ "POST") :
    webhookReceiver bearer method auth body s = (405, s) := by
  unfold webhookReceiver
  rw [if_pos hm]

lemma logOutput_snd (method : String) (cookie : Option String) (upg : Bool)
    (s : ServerState) : (logOutput method cookie upg s).2 = s := by
  unfold logOutput
  repeat' split
  all_goals rfl

lemma logOutput_none_401 (upg : Bool) (s : ServerState) :
    logOutput "GET" none upg s = (401, s) := by
  unfold logOutput
  rw [if_neg (by simp)]

lemma logOutput_zero_401 (v : String) (upg : Bool) (s : ServerState)
    (h0 : parseCookie (some v) = 0) :
    logOutput "GET" (some v) upg s = (401, s) := by
  unfold logOutput
  rw [if_neg (by simp)]
  exact if_pos h0

lemma logOutput_nolisten_400 (v : String) (upg : Bool) (s : ServerState)
    (h0 : parseCookie (some v) ≠ 0)
    (hlk : s.getListener (parseCookie (some v)) = none) :
    logOutput "GET" (some v) upg s = (400, s) := by
  unfold logOutput
  rw [if_neg (by simp)]
  rw [show (match some v with
      | none => ((401 : Nat), s)
      | some v =>
        if parseCookie (some v) = 0 then (401, s)
        else
          match s.getListener (parseCookie (some v)) with
          | none => (400, s)
          | some _ => if upg then (101, s) else (500, s)) =
      (if parseCookie (some v) = 0 then (401, s)
        else
          match s.getListener (parseCookie (some v)) with
          | none => (400, s)
          | some _ => if upg then (101, s) else (500, s)) from rfl,
    if_neg h0, hlk]

lemma serveIndex_new (cookie : Option String) (now : Int) (s : ServerState)
    (h : cookie = none ∨ s.getListener (parseCookie cookie) = none) :
    serveIndex "GET" cookie now s =
      (200, some (intToStr now), (s.addListener now).2) := by
  cases cookie with
  | none =>
    unfold serveIndex
    rw [if_neg (by simp)]
    exact if_pos rfl
  | some v =>
    rcases h with h | h
    · simp at h
    · unfold serveIndex
      rw [if_neg (by simp)]
      exact if_pos
        (show (s.getListener (parseCookie (some v))).isNone = true from by
          rw [h]; rfl)

lemma serveIndex_reuse (v : String) (now : Int) (s : ServerState)
    (h : s.getListener (parseCookie (some v)) ≠ none) :
    serveIndex "GET" (some v) now s = (200, none, s) := by
  cases hl : s.getListener (parseCookie (some v)) with
  | none => exact absurd hl h
  | some cn =>
    unfold serveIndex
    rw [if_neg (by simp), if_neg (fun hc => by
      have hc' : (s.getListener (parseCookie (some v))).isNone = true := hc
      rw [hl] at hc'
      cases hc')]

/-! ## The claims -/

/-- Claim C1: while the set of registered subscribers stays fixed (no
add or remove events), a run of the broadcast loop that starts with an
empty inbound queue and drains every published message leaves the
registry unchanged and appends to each registered subscriber's channel
exactly the published messages, in publish order (their bodies are the
published bodies). -/
theorem broadcast_fixed_subscribers (s : ServerState) (evs : List Event)
    (hwf : WF s) (hpd : ∀ e ∈ evs, e.touchesRegistry = false)
    (hm0 : s.messages = []) (hmf : (exec s evs).messages = [])
    (idx : Int) (cn : Nat) (hmem : (idx, cn) ∈ s.fanOut)
    (c : Chan) (hc : s.chans[cn]? = some c) :
    (exec s evs).fanOut = s.fanOut ∧
    (exec s evs).chans[cn]? =
      some ⟨c.buf ++ publishedMsgs evs s.pubSeq, c.closed⟩ ∧
    (publishedMsgs evs s.pubSeq).map Prod.snd = pubBodies evs := by
  obtain ⟨hfan, hmain⟩ := exec_pubdel evs s hwf hpd
  have hcn : cn ∈ s.fanOut.map Prod.snd := List.mem_map_of_mem Prod.snd hmem
  obtain ⟨buf, h1, h2⟩ := hmain cn hcn c hc
  rw [hmf, hm0] at h2
  simp only [List.append_nil] at h2
  rw [h2] at h1
  exact ⟨hfan, h1, publishedMsgs_map_snd evs s.pubSeq⟩

/-- Witness for C1: two fixed subscribers, two publishes, both
delivered by the loop; subscriber 10's channel holds both messages in
publish order. -/
theorem broadcast_fixed_subscribers_witness :
    (exec twoListeners twoPublishes).chans[0]? =
      some ⟨[] ++ publishedMsgs twoPublishes twoListeners.pubSeq, false⟩ :=
  (broadcast_fixed_subscribers twoListeners twoPublishes (by decide) (by decide)
    rfl (by decide) 10 0 (by decide) ⟨[], false⟩ (by decide)).2.1

/-- Claim C2: snapshot semantics of the fan-out. First: a subscriber
channel that is out of the registry (removed before the fan-out) has a
frozen queue - no later event ever delivers anything to it. Second: a
message whose stamp `t` was already fanned out (it is spent: below
`pubSeq` and no longer inbound) never appears in the queue of a
subscriber channel created after that point. -/
theorem snapshot_semantics (s : ServerState) (evs : List Event) (hwf : WF s) :
    (∀ cn, cn < s.chans.length → cn ∉ s.fanOut.map Prod.snd →
        (exec s evs).chans[cn]? = s.chans[cn]?) ∧
    (∀ t, t < s.pubSeq → t ∉ s.messages.map Prod.fst →
      ∀ cn, s.chans.length ≤ cn →
        ∀ c, (exec s evs).chans[cn]? = some c → ∀ b, (t, b) ∉ c.buf) := by
  constructor
  · intro cn hlen hout
    exact frozen_exec evs s cn hwf hlen hout
  · intro t hlt hnin cn hge c hc b
    have h0 : NoTrace t cn s :=
      ⟨hlt, hnin, fun c' hc' => by
        rw [List.getElem?_eq_none hge] at hc'
        cases hc'⟩
    obtain ⟨-, -, hbuf⟩ := noTrace_exec t cn evs s hwf h0
    exact hbuf c hc b

/-- Witness for C2: channel 0 is unregistered and stays frozen while a
new listener joins and a publish is fanned out; the channel created
after message 0 was spent never holds message 0. -/
theorem snapshot_semantics_witness :
    (exec orphanState orphanEvents).chans[0]? = orphanState.chans[0]? ∧
    ((0 : Nat), "x") ∉ (Chan.mk [(1, "x")] false).buf :=
  ⟨(snapshot_semantics orphanState orphanEvents (by decide)).1 0 (by decide)
      (by decide),
   (snapshot_semantics orphanState orphanEvents (by decide)).2 0 (by decide)
      (by decide) 1 (by decide) ⟨[(1, "x")], false⟩ (by decide) "x"⟩

/-- Claim C3 (refuted, code bug): `ServeHTTP` executes `go s.run()` on
every request, so the number of spawned broadcast goroutines equals the
number of requests served; after two requests two broadcast loops run
concurrently, not one idempotently-started worker. -/
theorem broadcast_spawn_not_idempotent :
    (∀ n, workersAfter n = n) ∧ workersAfter 2 = 2 ∧ workersAfter 2 ≠ 1 := by
  refine ⟨?_, rfl, by decide⟩
  intro n
  induction n with
  | zero => rfl
  | succ m ih => simp [workersAfter, goRun, ih]

/-- Claim C4 (refuted, code bug): `addListener` uses the clock reading
as the identifier without consulting the map. When the clock reading
equals a live identifier (here 42), the returned identifier is already
present at the moment of insertion and the existing entry is
overwritten: the registry does not grow and the previous channel for
identifier 42 (index 0) is silently unregistered. -/
theorem addListener_reuses_live_id :
    (oneListener.addListener 42).1 ∈ oneListener.fanOut.map Prod.fst ∧
    (oneListener.addListener 42).2.fanOut = [(42, 1)] ∧
    (oneListener.addListener 42).2.fanOut.length = oneListener.fanOut.length := by
  decide

/-- Claim C5: with a configured bearer token, a POST to the webhook
with a readable body succeeds (status 200, body enqueued) exactly when
the Authorization header is a scheme lowercasing to the word bearer,
one space, and the exact configured token; any mismatch (wrong scheme,
wrong token, absent header) answers 401 with the state, hence the
inbound queue, unchanged. -/
theorem webhook_bearer_auth (bearer method auth b : String) (s : ServerState)
    (hb : bearer ≠ "") (hm : method = "POST") :
    (webhookReceiver bearer method auth (some b) s = (200, s.publish b) ↔
      ∃ scheme : List Char, toLowerAscii scheme = "bearer".toList ∧
        auth.toList = scheme ++ ' ' :: bearer.toList) ∧
    ((¬∃ scheme : List Char, toLowerAscii scheme = "bearer".toList ∧
        auth.toList = scheme ++ ' ' :: bearer.toList) →
      webhookReceiver bearer method auth (some b) s = (401, s)) := by
  subst hm
  have hiff := bearerOk_iff bearer auth
  constructor
  · constructor
    · intro h
      apply hiff.1
      cases hval : bearerOk bearer auth with
      | true => rfl
      | false =>
        rw [webhookReceiver_401 bearer auth b s hb hval] at h
        have h' : (401 : Nat) = 200 := congrArg Prod.fst h
        exact absurd h' (by decide)
    · intro hex
      exact webhookReceiver_200 bearer auth b s (Or.inr (hiff.2 hex))
  · intro hno
    have hval : bearerOk bearer auth = false := by
      cases hval : bearerOk bearer auth with
      | true => exact absurd (hiff.1 hval) hno
      | false => rfl
    exact webhookReceiver_401 bearer auth b s hb hval

/-- Witness for C5: token tok, header Bearer tok, one space, exact
token: the request succeeds and the body is enqueued. -/
theorem webhook_bearer_auth_witness :
    webhookReceiver "tok" "POST" "Bearer tok" (some "hi") emptyState =
      (200, emptyState.publish "hi") :=
  (webhook_bearer_auth "tok" "POST" "Bearer tok" "hi" emptyState
      (by decide) rfl).1.mpr ⟨"Bearer".toList, by decide, by decide⟩

/-- Claim C6: a POST that passes the auth check (no token configured,
or the check passes) and whose body reads to completion answers 200 and
enqueues exactly one message - the full body - on the shared inbound
queue, without touching the registry or any subscriber channel and
regardless of whether any subscriber is registered; a non-POST request
to the webhook answers 405. -/
theorem webhook_enqueue (bearer auth b : String) (s : ServerState)
    (hauth : bearer = "" ∨ bearerOk bearer auth = true) :
    webhookReceiver bearer "POST" auth (some b) s = (200, s.publish b) ∧
    (s.publish b).messages = s.messages ++ [(s.pubSeq, b)] ∧
    (s.publish b).fanOut = s.fanOut ∧
    (s.publish b).chans = s.chans ∧
    ∀ method, method ≠ "POST" →
      webhookReceiver bearer method auth (some b) s = (405, s) :=
  ⟨webhookReceiver_200 bearer auth b s hauth, rfl, rfl, rfl,
   fun method hm => webhookReceiver_405 bearer method auth (some b) s hm⟩

/-- Witness for C6: no token configured, body enqueued on an empty
server with no subscribers. -/
theorem webhook_enqueue_witness :
    webhookReceiver "" "POST" "" (some "payload") emptyState =
      (200, emptyState.publish "payload") :=
  (webhook_enqueue "" "" "payload" emptyState (Or.inl rfl)).1

/-- Claim C7 counterexample: after the deferred cleanup of the stream
handler runs for subscriber 42 (registry entry removed, connection
closed), the subscriber's channel is untouched and in particular its
closed flag is still false - no code path ever closes a subscriber
queue, refuting the queue-closure part of the claim. -/
theorem cleanup_leaves_queue_open :
    (deferredCleanup .pushFailed 42 oneListener).2.fanOut = [] ∧
    (deferredCleanup .pushFailed 42 oneListener).2.chans = [Chan.new] ∧
    Chan.new.closed = false := by
  decide

/-- Claim C7 (amended): on every exit of the delivery loop, whatever
the cause, the deferred cleanup closes the websocket connection and
removes the subscriber's registry entry - the cleanup is independent of
the exit cause, so no registry entry leaks; the subscriber's channel
itself is left untouched (in particular it is never closed). -/
theorem cleanup_closes_conn_and_removes (cause : LoopExit) (idx : Int)
    (s : ServerState) :
    (deferredCleanup cause idx s).1 = true ∧
    idx ∉ (deferredCleanup cause idx s).2.fanOut.map Prod.fst ∧
    (deferredCleanup cause idx s).2.chans = s.chans ∧
    ∀ cause', deferredCleanup cause' idx s = deferredCleanup cause idx s :=
  ⟨rfl, not_mem_map_fst_mapErase idx s.fanOut, rfl, fun _ => rfl⟩

/-- Claim C8 counterexample: the cookie value 0 is in valid decimal
format and maps to no live session, yet the logs endpoint answers 401,
not the claimed 400. -/
theorem logOutput_zero_cookie_unauthorized :
    parseIntDec "0".toList = some 0 ∧
    emptyState.getListener 0 = none ∧
    logOutput "GET" (some "0") true emptyState = (401, emptyState) ∧
    (logOutput "GET" (some "0") true emptyState).1 ≠ 400 := by
  decide

/-- Claim C8 (amended): on a GET of the logs endpoint, a missing
cookie, or one whose value fails int64 decimal parsing, or one parsing
to 0 (including the literal 0) answers 401; a cookie parsing to a
nonzero identifier with no live registry entry answers 400; in every
case the server state is unchanged - the endpoint never creates a
session or registry entry. -/
theorem logOutput_rejects (v : Option String) (upg : Bool) (s : ServerState) :
    (v = none → logOutput "GET" v upg s = (401, s)) ∧
    (parseCookie v = 0 → logOutput "GET" v upg s = (401, s)) ∧
    (parseCookie v ≠ 0 → s.getListener (parseCookie v) = none →
      logOutput "GET" v upg s = (400, s)) ∧
    (logOutput "GET" v upg s).2 = s := by
  refine ⟨?_, ?_, ?_, logOutput_snd "GET" v upg s⟩
  · rintro rfl
    exact logOutput_none_401 upg s
  · intro h0
    cases v with
    | none => exact logOutput_none_401 upg s
    | some str => exact logOutput_zero_401 str upg s h0
  · intro h0 hlk
    cases v with
    | none => exact absurd rfl h0
    | some str => exact logOutput_nolisten_400 str upg s h0 hlk

/-- Witness for C8: cookie value 5 parses to the nonzero identifier 5,
which has no live entry on an empty server, so the answer is 400. -/
theorem logOutput_rejects_witness :
    logOutput "GET" (some "5") true emptyState = (400, emptyState) :=
  (logOutput_rejects (some "5") true emptyState).2.2.1 (by decide) (by decide)

/-- Claim C9: a GET of the entry page with no cookie, or with a cookie
that does not resolve to a live registry entry, registers exactly one
new listener (one new queue is allocated; under a fresh identifier the
registry grows by exactly one entry) and sets the idx cookie to the
decimal string of the new entry's identifier; with a cookie resolving
to a live entry, that entry is reused and nothing is created. -/
theorem serveIndex_sessions (cookie : Option String) (now : Int)
    (s : ServerState) :
    ((cookie = none ∨ s.getListener (parseCookie cookie) = none) →
      serveIndex "GET" cookie now s =
        (200, some (intToStr now), (s.addListener now).2) ∧
      (s.addListener now).2.chans = s.chans ++ [Chan.new] ∧
      (s.addListener now).2.getListener now = some s.chans.length ∧
      (now ∉ s.fanOut.map Prod.fst →
        (s.addListener now).2.fanOut.length = s.fanOut.length + 1)) ∧
    ∀ v, cookie = some v → s.getListener (parseCookie (some v)) ≠ none →
      serveIndex "GET" cookie now s = (200, none, s) := by
  constructor
  · intro h
    refine ⟨serveIndex_new cookie now s h, rfl,
      mapLookup_mapInsert_self now s.chans.length s.fanOut, ?_⟩
    intro hfresh
    exact length_mapInsert_not_mem now s.chans.length s.fanOut hfresh
  · rintro v rfl hlive
    exact serveIndex_reuse v now s hlive

/-- Witness for C9: a cookieless GET on an empty server creates the one
new entry and sets the cookie to its identifier. -/
theorem serveIndex_sessions_witness :
    serveIndex "GET" none 7 emptyState =
      (200, some (intToStr 7), (emptyState.addListener 7).2) :=
  ((serveIndex_sessions none 7 emptyState).1 (Or.inl rfl)).1

/-- Claim C10: `parseCookie` maps a nil cookie and every value that is
not a valid decimal 64-bit integer to identifier 0, and the logs
endpoint treats identifier 0 as a missing cookie: every GET of the logs
endpoint whose cookie parses to 0 - including the valid-format literal
0 - answers 401 and never 400, regardless of the registry contents. -/
theorem parseCookie_zero_unauthorized :
    parseCookie none = 0 ∧
    (∀ v : String, parseIntDec v.toList = none → parseCookie (some v) = 0) ∧
    parseCookie (some "0") = 0 ∧
    ∀ (v : String) (upg : Bool) (s : ServerState), parseCookie (some v) = 0 →
      logOutput "GET" (some v) upg s = (401, s) ∧
      logOutput "GET" (some v) upg s ≠ (400, s) := by
  refine ⟨rfl, ?_, rfl, ?_⟩
  · intro v h
    show (parseIntDec v.toList).getD 0 = 0
    rw [h]
    rfl
  · intro v upg s h0
    refine ⟨logOutput_zero_401 v upg s h0, ?_⟩
    rw [logOutput_zero_401 v upg s h0]
    intro h
    have h' : (401 : Nat) = 400 := congrArg Prod.fst h
    exact absurd h' (by decide)

/-- Witness for C10: the unparsable cookie value abc is treated as
missing; the logs endpoint answers 401 on an empty server. -/
theorem parseCookie_zero_unauthorized_witness :
    logOutput "GET" (some "abc") true emptyState = (401, emptyState) :=
  (parseCookie_zero_unauthorized.2.2.2 "abc" true emptyState (by decide)).1

end WebhookLogger
